import Mathlib

/-!
Shallow embedding of the ETL pipeline in `src/etl/prepare_dataset.py` and
`src/etl/upload_to_mongo.py`, together with proofs of the frozen claims
about it.

Modelling conventions:
* pandas missing values (`NaN` for strings/objects, `NaT` for datetimes)
  are `Option.none`; present values are `some`.
* Timestamps are epoch seconds (`Int`).  `pd.to_datetime` on an
  already-loaded timestamp is the identity of the model; a missing value
  stays missing (`NaT`).  A `Timedelta`'s `.dt.days` accessor is whole-day
  floor division on seconds (`Int.fdiv _ 86400`), which truncates toward
  negative infinity exactly as pandas does.
* Python `float(s)` is modelled by `pyFloat` over ASCII decimal literals,
  including sign, fractional part, exponent, digit-group underscores and
  the `inf`/`infinity`/`nan` spellings; finite values are rationals.
* DataFrames are lists of columns of cells; a cell is a tagged value with
  explicit `NaN`/`NaT`/`None` constructors so the sanitizer's behaviour on
  the different null flavours is visible.
* Python raising an exception is `Except.error`.
-/

deriving instance DecidableEq for Except

/-- Python `ValueError`, the error raised by `float(...)` on a malformed
string (the spec calls it `ParseError`). -/
inductive ParseError where
  | valueError
  deriving DecidableEq, Repr

/-- Result of Python `float(...)`: a finite value (modelled as a rational),
positive or negative infinity, or NaN. -/
inductive PyFloat where
  | finite (q : ℚ)
  | inf
  | ninf
  | nan
  deriving DecidableEq, Repr

/-- ASCII whitespace stripped by Python's `str.strip()` / `float()`. -/
def isPyWs (c : Char) : Bool :=
  c = ' ' || c = '\t' || c = '\n' || c = '\x0d' || c = '\x0b' || c = '\x0c'

/-- Strip whitespace from both ends of a character list. -/
def stripWs (cs : List Char) : List Char :=
  ((cs.dropWhile isPyWs).reverse.dropWhile isPyWs).reverse

/-- Character belongs to a digit group of a Python numeric literal
(digits with `_` separators). -/
def isDigitOrSep (c : Char) : Bool := c.isDigit || c = '_'

/-- A digit group of a Python numeric literal is valid when every
underscore is flanked by digits: the group starts and ends with a digit
and has no two consecutive underscores.  The empty group is valid (the
grammar decides where a group may be empty). -/
def validGroup (cs : List Char) : Bool :=
  match cs with
  | [] => true
  | _ =>
    (cs.head?.getD '0').isDigit && (cs.getLast?.getD '0').isDigit &&
      (cs.zip cs.tail).all (fun p => !(p.1 = '_' && p.2 = '_'))

/-- Numeric value of a digit group, ignoring underscore separators. -/
def groupVal (cs : List Char) : Nat :=
  (cs.filter Char.isDigit).foldl (fun n c => 10 * n + (c.toNat - '0'.toNat)) 0

/-- Split a leading digit group off a character list. -/
def takeGroup (cs : List Char) : List Char × List Char :=
  (cs.takeWhile isDigitOrSep, cs.dropWhile isDigitOrSep)

/-- Value of a decimal literal with sign, integer part, fractional part and
decimal exponent. -/
def decValue (sign : Bool) (ip fp : List Char) (exp : Int) : ℚ :=
  let fracDigits := (fp.filter Char.isDigit).length
  let mant : ℚ := (groupVal ip : ℚ) + (groupVal fp : ℚ) / (10 : ℚ) ^ fracDigits
  let scaled : ℚ :=
    if 0 ≤ exp then mant * (10 : ℚ) ^ exp.toNat else mant / (10 : ℚ) ^ (-exp).toNat
  if sign then -scaled else scaled

/-- Parse the part of a float literal after `e`/`E`: an optional sign and a
non-empty digit group. -/
def parseExp (cs : List Char) : Option Int :=
  let (esign, cs1) :=
    match cs with
    | '+' :: r => (false, r)
    | '-' :: r => (true, r)
    | r => (false, r)
  let (ds, rest) := takeGroup cs1
  if ds.isEmpty || !(validGroup ds) || !rest.isEmpty then none
  else some (if esign then -(groupVal ds : Int) else (groupVal ds : Int))

/-- Case-insensitive comparison against an ASCII keyword. -/
def foldEq (cs : List Char) (kw : List Char) : Bool :=
  cs.map Char.toLower == kw

/-- Model of Python `float(s)`: strips surrounding whitespace, then parses
an optional sign followed by either one of the special spellings
`inf`/`infinity`/`nan` or a decimal literal `digits [. digits] [exp]`
(at least one digit overall, `_` allowed between digits).  Returns `none`
where Python raises `ValueError`.  Restricted to ASCII digits and ASCII
whitespace. -/
def pyFloat (s : String) : Option PyFloat :=
  let cs := stripWs s.data
  let (sign, cs1) :=
    match cs with
    | '+' :: r => (false, r)
    | '-' :: r => (true, r)
    | r => (false, r)
  if foldEq cs1 ['i', 'n', 'f'] || foldEq cs1 ['i', 'n', 'f', 'i', 'n', 'i', 't', 'y'] then
    some (if sign then .ninf else .inf)
  else if foldEq cs1 ['n', 'a', 'n'] then
    some .nan
  else
    let (ip, cs2) := takeGroup cs1
    if !(validGroup ip) then none
    else
      match cs2 with
      | [] => if ip.isEmpty then none else some (.finite (decValue sign ip [] 0))
      | '.' :: r =>
        let (fp, r2) := takeGroup r
        if !(validGroup fp) || (ip.isEmpty && fp.isEmpty) then none
        else
          match r2 with
          | [] => some (.finite (decValue sign ip fp 0))
          | 'e' :: es => (parseExp es).map (fun e => .finite (decValue sign ip fp e))
          | 'E' :: es => (parseExp es).map (fun e => .finite (decValue sign ip fp e))
          | _ => none
      | 'e' :: es =>
        if ip.isEmpty then none
        else (parseExp es).map (fun e => .finite (decValue sign ip [] e))
      | 'E' :: es =>
        if ip.isEmpty then none
        else (parseExp es).map (fun e => .finite (decValue sign ip [] e))
      | _ => none

/-- The normalization chain of `parse_currency`:
`.replace("€","").replace("\xa0","").replace(".","").replace(",",".").strip()`.
Each `replace` is character-wise, and the removals happen before `,` is
turned into `.`, so the resulting dots survive. -/
def normalizeCurrency (s : String) : String :=
  String.mk
    (stripWs
      ((s.data.filter (fun c => !(c = '€' || c = '\xa0' || c = '.'))).map
        (fun c => if c = ',' then '.' else c)))

/-- Function `parse_currency` from `prepare_dataset.py`: `NaN` input propagates as
`NaN` (here `none`); otherwise the normalized string goes through
`float(...)`, whose `ValueError` on a malformed string propagates to the
caller. -/
def parse_currency : Option String → Except ParseError (Option PyFloat)
  | none => .ok none
  | some s =>
    match pyFloat (normalizeCurrency s) with
    | some v => .ok (some v)
    | none => .error .valueError

/-- A row of `data/campaigns.json`: `campaign_id` plus descriptive
metadata. -/
structure Campaign where
  campaign_id : String
  name : String
  deriving DecidableEq, Repr

/-- A row of `data/leads.json`.  `created_at` is the raw timestamp (epoch
seconds once parsed; `none` is a missing value), `cost` the raw currency
string. -/
structure Lead where
  lead_id : String
  input_channel : String
  created_at : Option Int
  cost : Option String
  deriving DecidableEq, Repr

/-- A row of `data/inscriptions.json`.  The `created_at` and `amount`
columns keep the `_insc`-suffixed / unsuffixed names of the merged frame. -/
structure Inscription where
  lead_id : String
  created_at : Option Int
  amount : Option String
  deriving DecidableEq, Repr

/-- One output group of a pandas left merge for a single left row: every
right row whose key matches, or a single row with a null right side when
none matches. -/
def mergeRow {α β : Type} (rs : List β) (p : β → Bool) (l : α) : List (α × Option β) :=
  match rs.filter p with
  | [] => [(l, none)]
  | ms => ms.map (fun r => (l, some r))

/-- pandas `left.merge(right, how="left")`: left row order is preserved,
each left row is repeated once per matching right row, and an unmatched
left row survives with nulls on the right side. -/
def leftMerge {α β : Type} (ls : List α) (rs : List β) (key : α → β → Bool) :
    List (α × Option β) :=
  ls.flatMap (fun l => mergeRow rs (key l) l)

/-- Model of `pd.isna` on a nullable value. -/
def pdIsNa {α : Type} (x : Option α) : Bool := x.isNone

/-- pandas comparison `x < 0` on a nullable integer: `NaN < 0` is `False`. -/
def pdLtZero (x : Option Int) : Bool :=
  match x with
  | some d => decide (d < 0)
  | none => false

/-- pandas comparison `x >= 0` on a nullable integer: `NaN >= 0` is
`False`. -/
def pdGeZero (x : Option Int) : Bool :=
  match x with
  | some d => decide (0 ≤ d)
  | none => false

/-- Function `detect_anomaly` from `prepare_dataset.py`, on the three columns of the
row it reads. -/
def detect_anomaly (converted : Bool) (inscription_created_at : Option Int)
    (conversion_time_days : Option Int) : String :=
  if converted && pdIsNa inscription_created_at then "MISSING_INSCRIPTION_DATE"
  else if converted && pdLtZero conversion_time_days then "NEGATIVE_CONVERSION_TIME"
  else "NO_ANOMALY"

/-- A row of the enriched frame returned by `prepare_dataset`: the columns
of the merged frame (the lead's columns, the matched campaign's columns,
the matched inscription's `_insc`-suffixed columns) plus every derived
column the script adds. -/
structure EnrichedRecord where
  lead_id : String
  input_channel : String
  campaign : Option Campaign
  inscription : Option Inscription
  lead_created_at : Option Int
  inscription_created_at : Option Int
  cost_float : Option PyFloat
  amount_float : Option PyFloat
  conversion_time_days : Option Int
  converted : Bool
  conversion_valid : Bool
  conversion_anomaly_type : String
  deriving DecidableEq, Repr

/-- Model of `(inscription_created_at - lead_created_at).dt.days`: whole-day
difference truncated toward negative infinity (`Int.fdiv`), `NaN` when
either timestamp is missing. -/
def conversionTimeDays (lead_created_at inscription_created_at : Option Int) : Option Int :=
  match inscription_created_at, lead_created_at with
  | some i, some l => some (Int.fdiv (i - l) 86400)
  | _, _ => none

/-- The column-wise transformations of `prepare_dataset` applied to one
merged row: date conversion, currency parsing (a `ValueError` from
`float(...)` aborts the run), conversion time, `converted`,
`conversion_valid` and `detect_anomaly`. -/
def enrichRow (row : (Lead × Option Campaign) × Option Inscription) :
    Except ParseError EnrichedRecord :=
  let l := row.1.1
  match parse_currency l.cost, parse_currency (row.2.bind Inscription.amount) with
  | .ok cf, .ok af =>
    let lca := l.created_at
    let ica := row.2.bind Inscription.created_at
    let ctd := conversionTimeDays lca ica
    let conv := !(pdIsNa ica)
    .ok
      { lead_id := l.lead_id
        input_channel := l.input_channel
        campaign := row.1.2
        inscription := row.2
        lead_created_at := lca
        inscription_created_at := ica
        cost_float := cf
        amount_float := af
        conversion_time_days := ctd
        converted := conv
        conversion_valid := pdGeZero ctd
        conversion_anomaly_type := detect_anomaly conv ica ctd }
  | .error e, _ => .error e
  | _, .error e => .error e

/-- Map a fallible function over a list, stopping at the first error —
the behaviour of the pipeline's column-wise `apply` when `float(...)`
raises. -/
def mapExcept {ε α β : Type} (f : α → Except ε β) : List α → Except ε (List β)
  | [] => .ok []
  | x :: xs =>
    match f x with
    | .error e => .error e
    | .ok y =>
      match mapExcept f xs with
      | .error e => .error e
      | .ok ys => .ok (y :: ys)

/-- Function `prepare_dataset` from `prepare_dataset.py`: left-merge leads with
campaigns on `input_channel == campaign_id`, left-merge the result with
inscriptions on `lead_id`, then add the derived columns. -/
def prepare_dataset (campaigns : List Campaign) (leads : List Lead)
    (inscriptions : List Inscription) : Except ParseError (List EnrichedRecord) :=
  let leads_campaigns := leftMerge leads campaigns (fun l c => c.campaign_id == l.input_channel)
  let merged := leftMerge leads_campaigns inscriptions (fun lc i => i.lead_id == lc.1.lead_id)
  mapExcept enrichRow merged

/-- A DataFrame cell, with the null flavours (`NaN`, `NaT`, `None`) kept
distinct so the sanitizer's replacements are observable. -/
inductive Cell where
  | cStr (s : String)
  | cFloat (v : PyFloat)
  | cNaN
  | cDate (t : Int)
  | cNaT
  | cBool (b : Bool)
  | cNone
  deriving DecidableEq, Repr

/-- Model of `pd.notnull` on one cell: false exactly on `NaN`, `NaT` and `None`. -/
def notnullCell : Cell → Bool
  | .cNaN => false
  | .cNaT => false
  | .cNone => false
  | _ => true

/-- Model of `x.where(pd.notnull(x), None)` on one cell. -/
def sanitizeCell (c : Cell) : Cell :=
  if notnullCell c then c else Cell.cNone

/-- A DataFrame column: its dtype flag (`datetime64` or not) and its
cells. -/
structure Column where
  isDatetime : Bool
  cells : List Cell
  deriving DecidableEq, Repr

/-- A DataFrame as the sanitizer sees it: a list of columns. -/
abbrev Frame := List Column

/-- The loop body of `sanitize_dataframe` for one column: a `datetime64`
column is cast to `object` dtype (clearing the dtype flag) with `NaT`
replaced by `None` via `.where(notnull, None)`; other columns are left
alone by this pass. -/
def convertDatetimeCol (col : Column) : Column :=
  if col.isDatetime then { isDatetime := false, cells := col.cells.map sanitizeCell }
  else col

/-- First pass of `sanitize_dataframe`: the datetime-column loop. -/
def datetimePass (f : Frame) : Frame := f.map convertDatetimeCol

/-- Second pass of `sanitize_dataframe`:
`df.where(pd.notnull(df), None)` over the whole frame. -/
def notnullPass (f : Frame) : Frame :=
  f.map (fun col => { isDatetime := col.isDatetime, cells := col.cells.map sanitizeCell })

/-- Function `sanitize_dataframe` from `prepare_dataset.py` as a pure
frame-to-frame function (the copy/aliasing behaviour is modelled
separately by `sanitize_dataframe_impl`). -/
def sanitize_dataframe (f : Frame) : Frame := notnullPass (datetimePass f)

/-- A heap of frames: Python DataFrame variables hold addresses into it,
so aliasing and in-place mutation are expressible. -/
abbrev Heap := List Frame

/-- Read the frame a variable points to. -/
def readH (h : Heap) (a : Nat) : Frame := h.getD a []

/-- In-place mutation of the frame at an address. -/
def writeH (h : Heap) (a : Nat) (f : Frame) : Heap := h.set a f

/-- Allocate a fresh frame, returning the new heap and its address. -/
def allocH (h : Heap) (f : Frame) : Heap × Nat := (h ++ [f], h.length)

/-- Function `sanitize_dataframe` with its memory behaviour made explicit:
`df_sanitized = df.copy()` allocates a fresh deep copy, the datetime loop
assigns columns of `df_sanitized` in place, and the final
`df_sanitized = df_sanitized.where(...)` rebinds the variable to a new
frame.  Returns the final heap and the address the function's return
value points to. -/
def sanitize_dataframe_impl (h : Heap) (df : Nat) : Heap × Nat :=
  let copied := allocH h (readH h df)
  let h1 := copied.1
  let dfs := copied.2
  let h2 := writeH h1 dfs (datetimePass (readH h1 dfs))
  let rebound := allocH h2 (notnullPass (readH h2 dfs))
  (rebound.1, rebound.2)

/-- Python `ValueError` raised by `upload_dataframe_to_mongo` when the MongoDB
configuration is missing. -/
inductive UploadError where
  | missingConfig
  deriving DecidableEq, Repr

/-- The three environment variables `upload_dataframe_to_mongo` reads. -/
structure MongoEnv where
  mongo_uri : Option String
  mongo_db : Option String
  mongo_collection : Option String
  deriving DecidableEq, Repr

/-- Python truthiness of an `os.getenv` result: unset (`None`) and the
empty string are falsy. -/
def envPresent : Option String → Bool
  | none => false
  | some s => !(s == "")

/-- Function `upload_dataframe_to_mongo` from `upload_to_mongo.py`, with the target
collection's contents as explicit state: after the config check, the
collection is cleared when `drop_existing` is set (`delete_many({})`), and
`insert_many` runs only when the record list is non-empty.  Returns the
collection contents after the call. -/
def upload_dataframe_to_mongo {α : Type} (env : MongoEnv) (records : List α)
    (drop_existing : Bool) (store : List α) : Except UploadError (List α) :=
  if !(envPresent env.mongo_uri) || !(envPresent env.mongo_db)
      || !(envPresent env.mongo_collection) then
    .error .missingConfig
  else
    let cleared := if drop_existing then [] else store
    if records.isEmpty then .ok cleared else .ok (cleared ++ records)

theorem mapExcept_ok_length {ε α β : Type} (f : α → Except ε β) :
    ∀ (xs : List α) (ys : List β), mapExcept f xs = .ok ys → ys.length = xs.length := by
  intro xs
  induction xs with
  | nil =>
    intro ys h
    simp [mapExcept] at h
    simp [← h]
  | cons x xs ih =>
    intro ys h
    simp only [mapExcept] at h
    cases hfx : f x with
    | error e => rw [hfx] at h; exact absurd h (by simp)
    | ok y =>
      rw [hfx] at h
      cases hrest : mapExcept f xs with
      | error e => rw [hrest] at h; exact absurd h (by simp)
      | ok zs =>
        rw [hrest] at h
        simp at h
        subst h
        simp [ih zs hrest]

theorem mapExcept_ok_mem {ε α β : Type} (f : α → Except ε β) :
    ∀ (xs : List α) (ys : List β), mapExcept f xs = .ok ys →
      ∀ y ∈ ys, ∃ x ∈ xs, f x = .ok y := by
  intro xs
  induction xs with
  | nil =>
    intro ys h
    simp [mapExcept] at h
    subst h
    intro y hy
    simp at hy
  | cons x xs ih =>
    intro ys h
    simp only [mapExcept] at h
    cases hfx : f x with
    | error e => rw [hfx] at h; exact absurd h (by simp)
    | ok y =>
      rw [hfx] at h
      cases hrest : mapExcept f xs with
      | error e => rw [hrest] at h; exact absurd h (by simp)
      | ok zs =>
        rw [hrest] at h
        simp at h
        subst h
        intro z hz
        rcases List.mem_cons.mp hz with hz | hz
        · exact ⟨x, List.mem_cons_self _ _, by rw [hfx, hz]⟩
        · rcases ih zs hrest z hz with ⟨x', hx', hfx'⟩
          exact ⟨x', List.mem_cons_of_mem _ hx', hfx'⟩

theorem mapExcept_ok_of_forall {ε α β : Type} (f : α → Except ε β) :
    ∀ (xs : List α), (∀ x ∈ xs, ∃ y, f x = .ok y) →
      ∃ ys, mapExcept f xs = .ok ys ∧ ys.length = xs.length := by
  intro xs
  induction xs with
  | nil => intro _; exact ⟨[], rfl, rfl⟩
  | cons x xs ih =>
    intro h
    rcases h x (List.mem_cons_self _ _) with ⟨y, hy⟩
    rcases ih (fun a ha => h a (List.mem_cons_of_mem _ ha)) with ⟨ys, hys, hlen⟩
    refine ⟨y :: ys, ?_, by simp [hlen]⟩
    simp only [mapExcept, hy, hys]

theorem mergeRow_length {α β : Type} (rs : List β) (p : β → Bool) (l : α) :
    (mergeRow rs p l).length = max 1 (rs.filter p).length := by
  cases h : rs.filter p with
  | nil => simp [mergeRow, h]
  | cons m ms => simp [mergeRow, h]

theorem leftMerge_length {α β : Type} (ls : List α) (rs : List β) (key : α → β → Bool)
    (h : ∀ l ∈ ls, (rs.filter (key l)).length ≤ 1) :
    (leftMerge ls rs key).length = ls.length := by
  induction ls with
  | nil => rfl
  | cons l ls ih =>
    have hl : (mergeRow rs (key l) l).length = 1 := by
      rw [mergeRow_length]
      have := h l (List.mem_cons_self _ _)
      omega
    simp only [leftMerge, List.flatMap_cons, List.length_append]
    rw [hl]
    have := ih (fun a ha => h a (List.mem_cons_of_mem _ ha))
    simp only [leftMerge] at this
    rw [this]
    simp only [List.length_cons]
    omega

theorem mergeRow_mem_fst {α β : Type} (rs : List β) (p : β → Bool) (l : α)
    (x : α × Option β) (hx : x ∈ mergeRow rs p l) : x.1 = l := by
  unfold mergeRow at hx
  cases h : rs.filter p with
  | nil =>
    rw [h] at hx
    simp at hx
    rw [hx]
  | cons m ms =>
    rw [h] at hx
    have hx' : x ∈ (m :: ms).map (fun r => (l, some r)) := hx
    rcases List.mem_map.mp hx' with ⟨b, -, hb⟩
    rw [← hb]

theorem leftMerge_mem_fst {α β : Type} (ls : List α) (rs : List β) (key : α → β → Bool)
    (x : α × Option β) (hx : x ∈ leftMerge ls rs key) : x.1 ∈ ls := by
  unfold leftMerge at hx
  rcases List.mem_flatMap.mp hx with ⟨l, hl, hxl⟩
  rw [mergeRow_mem_fst _ _ _ _ hxl]
  exact hl

theorem leftMerge_singleton {α β : Type} (l : α) (rs : List β) (key : α → β → Bool) :
    leftMerge [l] rs key = mergeRow rs (key l) l := by
  simp [leftMerge]

theorem leftMerge_nil_right {α β : Type} (ls : List α) (key : α → β → Bool) :
    leftMerge ls ([] : List β) key = ls.map (fun l => (l, none)) := by
  induction ls with
  | nil => rfl
  | cons l ls ih =>
    simp only [leftMerge, List.flatMap_cons, List.map_cons]
    rw [show mergeRow ([] : List β) (key l) l = [(l, none)] from rfl]
    simp only [leftMerge] at ih
    rw [ih]
    rfl

theorem filter_key_length_le_one {β : Type} (rs : List β) (keyf : β → String)
    (hnd : (rs.map keyf).Nodup) (k : String) :
    (rs.filter (fun r => keyf r == k)).length ≤ 1 := by
  induction rs with
  | nil => simp
  | cons r rest ih =>
    simp only [List.map_cons, List.nodup_cons] at hnd
    by_cases hk : keyf r == k
    · have hrest : rest.filter (fun x => keyf x == k) = [] := by
        rw [List.filter_eq_nil_iff]
        intro a ha hak
        apply hnd.1
        have : keyf a = k := by simpa using hak
        have hrk : keyf r = k := by simpa using hk
        rw [← hrk] at this
        exact this ▸ List.mem_map_of_mem keyf ha
      simp [List.filter_cons, hk, hrest]
    · simp only [List.filter_cons, hk, if_neg]
      simpa using ih hnd.2

theorem enrichRow_fields (row : (Lead × Option Campaign) × Option Inscription)
    (r : EnrichedRecord) (h : enrichRow row = .ok r) :
    r.inscription = row.2
    ∧ r.inscription_created_at = row.2.bind Inscription.created_at
    ∧ r.conversion_time_days
        = conversionTimeDays row.1.1.created_at (row.2.bind Inscription.created_at)
    ∧ r.converted = !(pdIsNa (row.2.bind Inscription.created_at))
    ∧ r.conversion_valid = pdGeZero r.conversion_time_days
    ∧ r.conversion_anomaly_type
        = detect_anomaly r.converted r.inscription_created_at r.conversion_time_days := by
  cases hc : parse_currency row.1.1.cost with
  | error e => simp [enrichRow, hc] at h
  | ok cf =>
    cases ha : parse_currency (row.2.bind Inscription.amount) with
    | error e => simp [enrichRow, hc, ha] at h
    | ok af =>
      simp only [enrichRow, hc, ha, Except.ok.injEq] at h
      subst h
      exact ⟨rfl, rfl, rfl, rfl, rfl, rfl⟩

theorem enrichRow_valid_facts (row : (Lead × Option Campaign) × Option Inscription)
    (r : EnrichedRecord) (h : enrichRow row = .ok r) :
    (r.conversion_valid = true → r.converted = true)
    ∧ (r.conversion_time_days = none → r.conversion_valid = false) := by
  obtain ⟨-, -, hctd, hconv, hvalid, -⟩ := enrichRow_fields row r h
  constructor
  · intro hv
    rw [hvalid, hctd] at hv
    rw [hconv]
    cases hri : row.2.bind Inscription.created_at with
    | none =>
      rw [hri] at hv
      simp [conversionTimeDays, pdGeZero] at hv
    | some t => simp [pdIsNa]
  · intro hn
    rw [hvalid, hn]
    rfl

theorem enrichRow_matched_missing_date (row : (Lead × Option Campaign) × Option Inscription)
    (r : EnrichedRecord) (h : enrichRow row = .ok r) (i : Inscription)
    (hm : row.2 = some i) (hd : i.created_at = none) :
    r.conversion_anomaly_type = "NO_ANOMALY" := by
  obtain ⟨-, hica, -, hconv, -, hanom⟩ := enrichRow_fields row r h
  have hnone : row.2.bind Inscription.created_at = none := by
    rw [hm]
    simpa using hd
  rw [hanom, hconv, hnone]
  simp [pdIsNa, detect_anomaly]

theorem enrichRow_ok_of_cost_none (x : Lead × Option Campaign) (h : x.1.cost = none) :
    ∃ r, enrichRow (x, (none : Option Inscription)) = .ok r := by
  obtain ⟨⟨lid, ch, ca, cost⟩, c⟩ := x
  change cost = none at h
  subst h
  exact ⟨_, rfl⟩

theorem sanitizeCell_comp : sanitizeCell ∘ sanitizeCell = sanitizeCell := by
  funext c
  cases c <;> rfl

theorem map_sanitizeCell_idem (cs : List Cell) :
    (cs.map sanitizeCell).map sanitizeCell = cs.map sanitizeCell := by
  rw [List.map_map, sanitizeCell_comp]

theorem sanitize_column_idem (col : Column) :
    (fun c => Column.mk c.isDatetime (c.cells.map sanitizeCell))
        (convertDatetimeCol
          ((fun c => Column.mk c.isDatetime (c.cells.map sanitizeCell))
            (convertDatetimeCol col)))
      = (fun c => Column.mk c.isDatetime (c.cells.map sanitizeCell))
          (convertDatetimeCol col) := by
  have hcell : ∀ c : Cell, sanitizeCell (sanitizeCell c) = sanitizeCell c := by
    intro c
    cases c <;> rfl
  cases hdt : col.isDatetime with
  | true => simp [convertDatetimeCol, hdt, map_sanitizeCell_idem, hcell]
  | false => simp [convertDatetimeCol, hdt, map_sanitizeCell_idem, hcell]

theorem readH_alloc_of_lt (h : Heap) (f : Frame) (a : Nat) (ha : a < h.length) :
    readH (allocH h f).1 a = readH h a := by
  unfold readH allocH
  exact List.getD_append h [f] [] a ha

theorem readH_write_ne (h : Heap) (b : Nat) (f : Frame) (a : Nat) (hab : b ≠ a) :
    readH (writeH h b f) a = readH h a := by
  unfold readH writeH
  rw [List.getD_eq_getElem?_getD, List.getD_eq_getElem?_getD, List.getElem?_set_ne hab]

/-- A lead with id `L1`, channel `C1`, created at epoch 0, null cost. -/
def leadL1 : Lead :=
  { lead_id := "L1", input_channel := "C1", created_at := some 0, cost := none }

/-- A second lead with id `L2`, channel `C1`, created at epoch 0, null
cost. -/
def leadL2 : Lead :=
  { lead_id := "L2", input_channel := "C1", created_at := some 0, cost := none }

/-- An inscription row matched to lead `L1` whose date is structurally
missing. -/
def inscNoDate : Inscription :=
  { lead_id := "L1", created_at := none, amount := none }

/-- A campaign with id `C1`. -/
def campA : Campaign := { campaign_id := "C1", name := "Search" }

/-- A second campaign sharing the id `C1`. -/
def campB : Campaign := { campaign_id := "C1", name := "Social" }

/-- C5: `parse_currency` maps `"€1.234,56"` to `1234.56`, null input to
null output, and `"0,00"` to `0.0` (zero, not null), stripping the euro
sign and non-breaking spaces, removing `.` as thousands separator and
turning `,` into the decimal point. -/
theorem C5_theorem :
    parse_currency (some "€1.234,56") = .ok (some (.finite ((123456 : ℚ) / 100)))
    ∧ parse_currency none = .ok none
    ∧ parse_currency (some "0,00") = .ok (some (.finite 0)) := by
  refine ⟨?_, rfl, ?_⟩
  · have h : parse_currency (some "€1.234,56")
        = .ok (some (.finite (decValue false ['1', '2', '3', '4'] ['5', '6'] 0))) := rfl
    rw [h]
    have h1 : groupVal ['1', '2', '3', '4'] = 1234 := by decide
    have h2 : groupVal ['5', '6'] = 56 := by decide
    have h3 : (List.filter Char.isDigit ['5', '6']).length = 2 := by decide
    simp [decValue, h1, h2, h3]
    norm_num
  · have h : parse_currency (some "0,00")
        = .ok (some (.finite (decValue false ['0'] ['0', '0'] 0))) := rfl
    rw [h]
    have h1 : groupVal ['0'] = 0 := by decide
    have h2 : groupVal ['0', '0'] = 0 := by decide
    simp [decValue, h1, h2]

/-- C6: for every non-null input whose normalized form is not a valid
number, `parse_currency` fails with the parse error (Python `ValueError`)
rather than returning a value. -/
theorem C6_theorem (s : String) (h : pyFloat (normalizeCurrency s) = none) :
    parse_currency (some s) = .error .valueError := by
  simp [parse_currency, h]

/-- C6 witness: the empty string is rejected after normalization and
`parse_currency` surfaces the error on it. -/
theorem C6_witness :
    pyFloat (normalizeCurrency "") = none
    ∧ parse_currency (some "") = .error .valueError :=
  ⟨by decide, C6_theorem "" (by decide)⟩

/-- C7: a lead created at `T` whose inscription is at `T - 1 hour` gets
`conversion_time_days = -1` (truncation toward negative infinity, not
toward zero), `conversion_valid = false` and
`conversion_anomaly_type = NEGATIVE_CONVERSION_TIME`. -/
theorem C7_theorem (t : Int) :
    ∃ r, prepare_dataset []
        [{ lead_id := "L1", input_channel := "C1", created_at := some t, cost := none }]
        [{ lead_id := "L1", created_at := some (t - 3600), amount := none }] = .ok [r]
      ∧ r.conversion_time_days = some (-1)
      ∧ r.conversion_valid = false
      ∧ r.conversion_anomaly_type = "NEGATIVE_CONVERSION_TIME" := by
  have hd : Int.fdiv (t - 3600 - t) 86400 = -1 := by
    have h1 : t - 3600 - t = -3600 := by ring
    rw [h1]
    decide
  refine ⟨_, rfl, ?_, ?_, ?_⟩
  · show some (Int.fdiv (t - 3600 - t) 86400) = some (-1)
    rw [hd]
  · show pdGeZero (some (Int.fdiv (t - 3600 - t) 86400)) = false
    rw [hd]
    rfl
  · show detect_anomaly true (some (t - 3600)) (some (Int.fdiv (t - 3600 - t) 86400))
        = "NEGATIVE_CONVERSION_TIME"
    rw [hd]
    rfl

/-- C8: the sanitizer is idempotent — sanitizing an already-sanitized
frame is a no-op (and as a total Lean function it raises nothing). -/
theorem C8_theorem (f : Frame) :
    sanitize_dataframe (sanitize_dataframe f) = sanitize_dataframe f := by
  unfold sanitize_dataframe notnullPass datetimePass
  simp only [List.map_map]
  exact List.map_congr_left (fun col _ => sanitize_column_idem col)

/-- C9: `sanitize_dataframe` does not mutate its argument — after the
call, the frame the input variable points to is unchanged. -/
theorem C9_theorem (h : Heap) (df : Nat) (hdf : df < h.length) :
    readH (sanitize_dataframe_impl h df).1 df = readH h df := by
  simp only [sanitize_dataframe_impl]
  rw [readH_alloc_of_lt]
  · rw [readH_write_ne]
    · rw [readH_alloc_of_lt _ _ _ hdf]
    · simp [allocH]
      omega
  · simp [allocH, writeH]
    omega

/-- C9 witness: a one-frame heap whose only frame holds one datetime
column with a `NaT`; sanitizing it leaves that frame intact. -/
theorem C9_witness :
    readH (sanitize_dataframe_impl [[{ isDatetime := true, cells := [Cell.cNaT] }]] 0).1 0
      = readH [[{ isDatetime := true, cells := [Cell.cNaT] }]] 0 :=
  C9_theorem [[{ isDatetime := true, cells := [Cell.cNaT] }]] 0 (by decide)

/-- C10: with `drop_existing = true` and no records,
`upload_dataframe_to_mongo` still clears the whole collection and inserts
nothing, leaving the store empty. -/
theorem C10_theorem {α : Type} (env : MongoEnv) (store : List α)
    (h1 : envPresent env.mongo_uri = true) (h2 : envPresent env.mongo_db = true)
    (h3 : envPresent env.mongo_collection = true) :
    upload_dataframe_to_mongo env ([] : List α) true store = .ok [] := by
  simp [upload_dataframe_to_mongo, h1, h2, h3]

/-- A fully-populated MongoDB configuration. -/
def envOk : MongoEnv :=
  { mongo_uri := some "mongodb://u", mongo_db := some "db", mongo_collection := some "col" }

/-- C10 witness: uploading an empty record set over a three-document
store with `drop_existing = true` empties the store. -/
theorem C10_witness :
    envPresent envOk.mongo_uri = true
    ∧ envPresent envOk.mongo_db = true
    ∧ envPresent envOk.mongo_collection = true
    ∧ upload_dataframe_to_mongo envOk ([] : List Nat) true [1, 2, 3] = .ok [] :=
  ⟨rfl, rfl, rfl, C10_theorem envOk [1, 2, 3] rfl rfl rfl⟩

/-- The record `prepare_dataset` produces for `leadL1` joined to the
dateless inscription row `inscNoDate` with no campaigns. -/
def recC1 : EnrichedRecord :=
  { lead_id := "L1", input_channel := "C1", campaign := none,
    inscription := some inscNoDate, lead_created_at := some 0,
    inscription_created_at := none, cost_float := none, amount_float := none,
    conversion_time_days := none, converted := false, conversion_valid := false,
    conversion_anomaly_type := "NO_ANOMALY" }

/-- C1: counterexample — a matched inscription row whose date is absent
yields `conversion_anomaly_type = "NO_ANOMALY"`, not
`"MISSING_INSCRIPTION_DATE"`: `converted` is derived from date presence,
so the first classifier rule cannot fire on pipeline output. -/
theorem C1_counterexample :
    (prepare_dataset [] [leadL1] [inscNoDate]).map
        (List.map EnrichedRecord.conversion_anomaly_type) = .ok ["NO_ANOMALY"]
    ∧ "NO_ANOMALY" ≠ "MISSING_INSCRIPTION_DATE" := by
  refine ⟨by decide, by decide⟩

/-- C1 (amended): for every enriched record where a matched inscription
row exists but the inscription date is absent, the classifier assigns
`NO_ANOMALY` — because `converted` is computed from date presence, the
`MISSING_INSCRIPTION_DATE` rule is unreachable from pipeline output. -/
theorem C1_theorem (campaigns : List Campaign) (leads : List Lead)
    (inscriptions : List Inscription) (out : List EnrichedRecord)
    (henr : prepare_dataset campaigns leads inscriptions = .ok out)
    (r : EnrichedRecord) (hr : r ∈ out) (i : Inscription)
    (hm : r.inscription = some i) (hd : i.created_at = none) :
    r.conversion_anomaly_type = "NO_ANOMALY" := by
  simp only [prepare_dataset] at henr
  obtain ⟨row, -, hrow⟩ := mapExcept_ok_mem enrichRow _ out henr r hr
  obtain ⟨hins, -, -, -, -, -⟩ := enrichRow_fields row r hrow
  exact enrichRow_matched_missing_date row r hrow i (by rw [← hins]; exact hm) hd

/-- C1 witness: the amended claim instantiated on the concrete dateless
matched inscription. -/
theorem C1_witness : recC1.conversion_anomaly_type = "NO_ANOMALY" :=
  C1_theorem [] [leadL1] [inscNoDate] [recC1] (by decide) recC1
    (List.mem_cons_self _ _) inscNoDate rfl rfl

/-- C2: counterexample — with two campaigns sharing `campaign_id = "C1"`,
enrichment does not fail at all: it returns two enriched rows for the one
lead, one per matching campaign. -/
theorem C2_counterexample :
    prepare_dataset [campA, campB] [leadL2] []
      = .ok
        [{ lead_id := "L2", input_channel := "C1", campaign := some campA,
           inscription := none, lead_created_at := some 0, inscription_created_at := none,
           cost_float := none, amount_float := none, conversion_time_days := none,
           converted := false, conversion_valid := false,
           conversion_anomaly_type := "NO_ANOMALY" },
         { lead_id := "L2", input_channel := "C1", campaign := some campB,
           inscription := none, lead_created_at := some 0, inscription_created_at := none,
           cost_float := none, amount_float := none, conversion_time_days := none,
           converted := false, conversion_valid := false,
           conversion_anomaly_type := "NO_ANOMALY" }] := by
  decide

/-- C2 (amended): duplicate join keys do not make enrichment fail with an
integrity error; the merge keeps every match, so a lead yields one
enriched row per matching campaign (one row when none matches). -/
theorem C2_theorem (campaigns : List Campaign) (l : Lead) (hc : l.cost = none) :
    ∃ out, prepare_dataset campaigns [l] [] = .ok out
      ∧ out.length
          = max 1 (campaigns.filter (fun c => c.campaign_id == l.input_channel)).length := by
  simp only [prepare_dataset]
  rw [leftMerge_nil_right]
  have hall : ∀ row ∈ (leftMerge [l] campaigns
      (fun l c => c.campaign_id == l.input_channel)).map
        (fun x => (x, (none : Option Inscription))),
      ∃ r, enrichRow row = .ok r := by
    intro row hrow
    rcases List.mem_map.mp hrow with ⟨x, hx, hxe⟩
    have hx1 : x.1 = l := by
      have hmem := leftMerge_mem_fst _ _ _ x hx
      simpa using hmem
    rw [← hxe]
    exact enrichRow_ok_of_cost_none x (by rw [hx1]; exact hc)
  obtain ⟨out, hout, hlen⟩ := mapExcept_ok_of_forall enrichRow _ hall
  refine ⟨out, hout, ?_⟩
  rw [hlen, List.length_map, leftMerge_singleton, mergeRow_length]

/-- C2 witness: the amended claim instantiated on the duplicated
campaigns. -/
theorem C2_witness :
    ∃ out, prepare_dataset [campA, campB] [leadL2] [] = .ok out
      ∧ out.length
          = max 1 (([campA, campB].filter
              (fun c => c.campaign_id == leadL2.input_channel)).length) :=
  C2_theorem [campA, campB] leadL2 rfl

/-- C3: counterexample — on an input with two campaigns sharing an id,
enrichment produces 2 records for 1 lead, so `len(output) == len(Leads)`
fails for that input. -/
theorem C3_counterexample :
    (prepare_dataset [campA, campB] [leadL2] []).map List.length = .ok 2
    ∧ [leadL2].length = 1
    ∧ (2 : Nat) ≠ 1 := by
  refine ⟨by decide, rfl, by decide⟩

/-- C3 (amended): when `campaign_id` is unique among campaigns and
`lead_id` unique among inscriptions (the data-model preconditions), a
successful enrichment yields exactly one record per lead. -/
theorem C3_theorem (campaigns : List Campaign) (leads : List Lead)
    (inscriptions : List Inscription) (out : List EnrichedRecord)
    (hc : (campaigns.map Campaign.campaign_id).Nodup)
    (hi : (inscriptions.map Inscription.lead_id).Nodup)
    (henr : prepare_dataset campaigns leads inscriptions = .ok out) :
    out.length = leads.length := by
  simp only [prepare_dataset] at henr
  rw [mapExcept_ok_length enrichRow _ out henr]
  rw [leftMerge_length _ _ _
      (fun lc _ => filter_key_length_le_one inscriptions Inscription.lead_id hi lc.1.lead_id)]
  exact leftMerge_length _ _ _
    (fun l _ => filter_key_length_le_one campaigns Campaign.campaign_id hc l.input_channel)

/-- The record `prepare_dataset` produces for `leadL2` joined to `campA`
with no inscriptions. -/
def recC3 : EnrichedRecord :=
  { lead_id := "L2", input_channel := "C1", campaign := some campA,
    inscription := none, lead_created_at := some 0, inscription_created_at := none,
    cost_float := none, amount_float := none, conversion_time_days := none,
    converted := false, conversion_valid := false,
    conversion_anomaly_type := "NO_ANOMALY" }

/-- C3 witness: the amended claim instantiated on a key-unique input. -/
theorem C3_witness :
    ([campA].map Campaign.campaign_id).Nodup
    ∧ (([] : List Inscription).map Inscription.lead_id).Nodup
    ∧ [recC3].length = [leadL2].length :=
  ⟨by decide, by decide, C3_theorem [campA] [leadL2] [] [recC3] (by decide) (by decide) (by decide)⟩

/-- C4: for every record produced by enrichment, `conversion_valid = true`
implies `converted = true`; in particular a record with null
`conversion_time_days` (e.g. a lead with no inscription) has
`conversion_valid = false`. -/
theorem C4_theorem (campaigns : List Campaign) (leads : List Lead)
    (inscriptions : List Inscription) (out : List EnrichedRecord)
    (henr : prepare_dataset campaigns leads inscriptions = .ok out)
    (r : EnrichedRecord) (hr : r ∈ out) :
    (r.conversion_valid = true → r.converted = true)
    ∧ (r.conversion_time_days = none → r.conversion_valid = false) := by
  simp only [prepare_dataset] at henr
  obtain ⟨row, -, hrow⟩ := mapExcept_ok_mem enrichRow _ out henr r hr
  exact enrichRow_valid_facts row r hrow

/-- The record `prepare_dataset` produces for `leadL1` alone (no
campaigns, no inscriptions). -/
def recC4 : EnrichedRecord :=
  { lead_id := "L1", input_channel := "C1", campaign := none, inscription := none,
    lead_created_at := some 0, inscription_created_at := none, cost_float := none,
    amount_float := none, conversion_time_days := none, converted := false,
    conversion_valid := false, conversion_anomaly_type := "NO_ANOMALY" }

/-- C4 witness: the claim instantiated on a lead with no inscription. -/
theorem C4_witness :
    (recC4.conversion_valid = true → recC4.converted = true)
    ∧ (recC4.conversion_time_days = none → recC4.conversion_valid = false) :=
  C4_theorem [] [leadL1] [] [recC4] (by decide) recC4 (List.mem_cons_self _ _)
